import Mathlib

/-!
# Verification of `OmniMarkupLib/RendererManager.py`

A shallow embedding of the background rendering coordinator of
OmniMarkupPreviewer: the renderer dispatch function (`render_text`),
the enabled-renderer search (`is_renderers_enabled`), the language
extraction from a scope name (`get_lang_by_scope_name`), the coalescing
worker queue (`RendererWorker.queue` / `_run_queued_item` / `run` /
`stop`) and the view entry point (`queue_view`).

Modelling conventions:
- Python exceptions become `Except PyExc`; a bare `except:` corresponds
  to matching every `.error` constructor.
- Python `None`-able strings become `Option String`; Python's
  `x or d` (falsy on both `None` and `""`) is `pyOr`.
- The class-level registry `RendererManager.RENDERERS` is threaded as an
  explicit `List Renderer` argument.
- The rendered-markup cache (class `RenderedMarkupCache`, whose source is
  outside this tree) is modelled from the spec as a key/value store with
  `set_entry` / `exists` (see `WorkerState.cache`).
- Calls to the external `log` module are side effects; they are modelled
  only where a claim depends on them (the worker's per-item handler
  appends to `WorkerState.log`).
- Threading primitives (lock, condition variable) are modelled by giving
  the worker loop body as a state-transition function `runStep` invoked
  at each wake-up; submissions mutate the shared state directly.
-/

/-- A Python exception value.  `_run_queued_item` distinguishes
`NotImplementedError` (raised by `render_text` when no renderer applies)
from every other exception, so the model keeps exactly that distinction. -/
inductive PyExc where
  | notImplementedError : PyExc
  | other : String → PyExc
deriving DecidableEq, Repr

/-- Python's `a or b` on an optional string: both `None` and the empty
string are falsy, so they select the default. -/
def pyOr (a : Option String) (b : String) : String :=
  match a with
  | none => b
  | some "" => b
  | some s => s

/-- A renderer plugin object, as registered in
`RendererManager.RENDERERS`.  `is_enabled(filename, lang)` and
`render(text, filename=filename)` are arbitrary Python calls and may
raise; the filename argument is whatever the caller passes, which in
Python may be `None` (hence `Option String`). -/
structure Renderer where
  name : String
  is_enabled : Option String → String → Except PyExc Bool
  render : String → Option String → Except PyExc String

/-- `RendererManager.render_text` (lines 127-134).  Iterates the
registered renderers in order; each iteration's `is_enabled` call and
`render` call are both inside the `try:` whose bare `except:` logs and
continues with the next renderer.  When the loop exhausts, it raises
`NotImplementedError`. -/
def render_text (rs : List Renderer) (filename : Option String)
    (lang text : String) : Except PyExc String :=
  match rs with
  | [] => .error .notImplementedError
  | r :: rest =>
    match r.is_enabled filename lang with
    | .ok true =>
      match r.render text filename with
      | .ok html => .ok html
      | .error _ => render_text rest filename lang text
    | .ok false => render_text rest filename lang text
    | .error _ => render_text rest filename lang text

/-- `RendererManager.is_renderers_enabled` (lines 102-109).  Normalizes
a `None` filename to `""` (`filename = filename or ""`), then asks each
renderer in order; no `try:` here, so an `is_enabled` exception
propagates to the caller. -/
def is_renderers_enabled (rs : List Renderer) (filename : Option String)
    (lang : String) : Except PyExc Bool :=
  let fn := pyOr filename ""
  go fn rs
where
  go (fn : String) : List Renderer → Except PyExc Bool
  | [] => .ok false
  | r :: rest =>
    match r.is_enabled (some fn) lang with
    | .ok true => .ok true
    | .ok false => go fn rest
    | .error e => .error e

/-- The whitespace class of Python 2 `re`'s `\s` on `str` patterns:
space, tab, newline, carriage return, vertical tab, form feed. -/
def pyIsSpace (c : Char) : Bool :=
  c = ' ' || c = '\t' || c = '\n' || c = '\r' || c = '\x0b' || c = '\x0c'

/-- `LANG_RE.search(scope_name)` for `LANG_RE = re.compile(r"^[^\s]+(?=\s+)")`
(line 99).  The `^` anchor (no MULTILINE) restricts the match to
position 0, so the greedy `[^\s]+` consumes exactly the leading maximal
run of non-whitespace; the lookahead `(?=\s+)` demands that the
character right after the run exist and be whitespace (backtracking the
greedy run cannot help: any shorter prefix is followed by a
non-whitespace character of the run itself).  Returns `m.group(0)`. -/
def LANG_RE_search (s : List Char) : Option (List Char) :=
  let run := s.takeWhile (fun c => !pyIsSpace c)
  if run ≠ [] ∧ s.drop run.length ≠ [] then some run else none

/-- `RendererManager.get_lang_by_scope_name` (lines 111-118): regex
search, then `.lower()` of the whole match, or `""` on no match. -/
def get_lang_by_scope_name (scope_name : String) : String :=
  match LANG_RE_search scope_name.data with
  | none => ""
  | some run => String.mk (run.map Char.toLower)

/-- `os.path.basename` (POSIX): the part after the last `'/'`. -/
def os_path_basename (p : String) : String :=
  String.mk ((p.data.reverse.takeWhile (fun c => c ≠ '/')).reverse)

/-- `os.path.dirname` (POSIX): the part up to the last `'/'`, with
trailing slashes stripped unless the result is all slashes. -/
def os_path_dirname (p : String) : String :=
  let head := (p.data.reverse.dropWhile (fun c => c ≠ '/')).reverse
  if head.all (fun c => c = '/') then String.mk head
  else String.mk ((head.reverse.dropWhile (fun c => c = '/')).reverse)

/-- `WorkerQueueItem.__init__` (lines 39-44): `timestamp` defaults to 0
(and `RendererWorker.queue` never passes one), `fullpath` is defaulted
to `'untitled'` when `None` or empty. -/
structure WorkerQueueItem where
  timestamp : Nat
  fullpath : String
  lang : String
  text : String
deriving DecidableEq, Repr

/-- The item built by `RendererWorker.queue` (line 56):
`WorkerQueueItem(fullpath=fullpath, lang=lang, text=text)`. -/
def mkWorkerQueueItem (fullpath : Option String) (lang text : String) :
    WorkerQueueItem :=
  { timestamp := 0, fullpath := pyOr fullpath "untitled", lang := lang, text := text }

/-- `RenderedMarkupCacheEntry(filename=..., dirname=..., html_part=...)`.
Modelled from the spec: the entry type of the result cache sink,
`{filename, dirname, html_part}`, keyed externally by document id. -/
structure RenderedMarkupCacheEntry where
  filename : String
  dirname : String
  html_part : String
deriving DecidableEq, Repr

/-- Python `dict` assignment `d[k] = v`: replace the value of an
existing key, otherwise add the pair.  Used for both the worker's
pending map `que` and the modelled cache. -/
def dictInsert {α : Type} (k : Nat) (v : α) :
    List (Nat × α) → List (Nat × α)
  | [] => [(k, v)]
  | p :: rest => if p.1 = k then (k, v) :: rest else p :: dictInsert k v rest

/-- Python `d[k]`-style lookup (as `Option`). -/
def qLookup {α : Type} (k : Nat) : List (Nat × α) → Option α
  | [] => none
  | p :: rest => if p.1 = k then some p.2 else qLookup k rest

/-- Number of entries a dict holds under key `k`. -/
def keyCount {α : Type} (k : Nat) (d : List (Nat × α)) : Nat :=
  (d.filter (fun p => p.1 = k)).length

/-- The dict invariant: all keys distinct. -/
def keysNodup {α : Type} (d : List (Nat × α)) : Prop :=
  (d.map Prod.fst).Nodup

instance {α : Type} (d : List (Nat × α)) : Decidable (keysNodup d) :=
  inferInstanceAs (Decidable (d.map Prod.fst).Nodup)

/-- The mutable state shared by submitters and the worker:
`RendererWorker.que` and `RendererWorker.stopping` (lines 52-53),
plus — modelled from the spec — the singleton `RenderedMarkupCache`
(a key/value store written through `set_entry` and probed through
`exists`) and the external log sink. -/
structure WorkerState where
  que : List (Nat × WorkerQueueItem)
  stopping : Bool
  cache : List (Nat × RenderedMarkupCacheEntry)
  log : List String
deriving DecidableEq, Repr

/-- `RenderedMarkupCache.instance().exists(buffer_id)`.  Modelled from
the spec: `cache.exists(document_id) -> bool` on a key/value store. -/
def cacheExists (bid : Nat) (cache : List (Nat × RenderedMarkupCacheEntry)) : Bool :=
  (qLookup bid cache).isSome

/-- `RendererWorker._run_queued_item` (lines 64-75): render the item and
store the result under `buffer_id`; `except NotImplementedError: pass`;
any other exception is logged (`log.exception("")`) and swallowed.
Since `render_text` catches every renderer exception internally, the
only exception it raises is `NotImplementedError`; the generic branch is
kept because the source has it. -/
def _run_queued_item (rs : List Renderer) (s : WorkerState)
    (buffer_id : Nat) (item : WorkerQueueItem) : WorkerState :=
  let filename := os_path_basename item.fullpath
  let dirname := os_path_dirname item.fullpath
  match render_text rs (some filename) item.lang item.text with
  | .ok html_part =>
    { s with cache := dictInsert buffer_id ⟨filename, dirname, html_part⟩ s.cache }
  | .error .notImplementedError => s
  | .error (.other _) => { s with log := s.log ++ [""] }

/-- `RendererWorker.queue` (lines 55-62): build the item; if `immediate`
run it synchronously in the caller's context, else store it in the
pending dict under `buffer_id` (overwriting any previous item for that
buffer) and notify the worker. -/
def queue (rs : List Renderer) (s : WorkerState) (buffer_id : Nat)
    (fullpath : Option String) (lang text : String) (immediate : Bool) :
    WorkerState :=
  let item := mkWorkerQueueItem fullpath lang text
  if immediate then _run_queued_item rs s buffer_id item
  else { s with que := dictInsert buffer_id item s.que }

/-- The worker's batch loop (lines 87-88): run each drained item in
turn.  A total function: `_run_queued_item` swallows every exception, so
one item's failure cannot stop the remaining items. -/
def processBatch (rs : List Renderer) (s : WorkerState) :
    List (Nat × WorkerQueueItem) → WorkerState
  | [] => s
  | (bid, item) :: rest => processBatch rs (_run_queued_item rs s bid item) rest

/-- Where a wake-up of the worker loop leaves it. -/
inductive WorkerPhase where
  | waiting : WorkerPhase
  | terminated : WorkerPhase
deriving DecidableEq, Repr

/-- One wake-up of `RendererWorker.run`'s loop body (lines 78-88): after
`cond.wait()` returns, check `stopping` (break → terminated); on an
empty pending dict go back to waiting (spurious wake); otherwise
snapshot and clear the dict, release the lock, process the batch, and
wait again. -/
def runStep (rs : List Renderer) (s : WorkerState) :
    WorkerPhase × WorkerState :=
  if s.stopping then (.terminated, s)
  else if s.que.isEmpty then (.waiting, s)
  else
    let batch := s.que
    let s1 := { s with que := [] }
    (.waiting, processBatch rs s1 batch)

/-- `RendererWorker.stop` (lines 90-94): set the stop flag (the notify
and `join()` are the wake-up and completion of the final `runStep`). -/
def stop (s : WorkerState) : WorkerState :=
  { s with stopping := true }

/-- The editor view snapshot read by `queue_view`: `buffer_id()`,
`file_name()` (may be `None`), `scope_name(0)` and the full text
`substr(Region(0, size()))`.  Modelled from the spec: the host editor's
view API is an external collaborator supplying these four values. -/
structure ViewState where
  buffer_id : Nat
  file_name : Option String
  scope_name : String
  text : String

/-- The per-view settings bit `settings.get('omnimarkup_enabled', False)`
/ `settings.set('omnimarkup_enabled', True)`, with the `get` default
already applied. -/
structure ViewSettings where
  omnimarkup_enabled : Bool
deriving DecidableEq, Repr

/-- `RendererManager.queue_view` (lines 136-148).  The source's early
`return` inside the nested `if` is flattened: the call is a no-op
exactly when `only_exists` holds, the buffer has no cache entry, and the
view was not previously opted in; otherwise it sets the opt-in flag and
forwards the snapshot to `RendererWorker.queue`. -/
def queue_view (rs : List Renderer) (s : WorkerState) (v : ViewState)
    (st : ViewSettings) (only_exists immediate : Bool) :
    WorkerState × ViewSettings :=
  if only_exists && !(cacheExists v.buffer_id s.cache) && !st.omnimarkup_enabled then
    (s, st)
  else
    (queue rs s v.buffer_id v.file_name (get_lang_by_scope_name v.scope_name)
       v.text immediate,
     { omnimarkup_enabled := true })

/-- "Renderer `r` both reports itself enabled for the filename/language
pair and completes its render call successfully" — the success condition
of one iteration of `render_text`'s loop. -/
def rendererSucceeds (r : Renderer) (fn : Option String) (lang text : String) : Prop :=
  r.is_enabled fn lang = .ok true ∧ ∃ html, r.render text fn = .ok html

/-- A renderer whose `is_enabled` raises. -/
def enablementBoom : Renderer :=
  ⟨"BoomRenderer", fun _ _ => .error (.other "boom"), fun _ _ => .ok "<p>unused</p>"⟩

/-- A renderer that is enabled but whose `render` always raises. -/
def failingRenderer : Renderer :=
  ⟨"Failing", fun _ _ => .ok true, fun _ _ => .error (.other "render failed")⟩

/-- A renderer that is enabled and renders successfully. -/
def okRenderer : Renderer :=
  ⟨"Ok", fun _ _ => .ok true, fun _ _ => .ok "<p>ok</p>"⟩

/-- A renderer that reports itself enabled exactly when the filename it
receives is Python `None` — it can tell whether a null was propagated. -/
def nullProbe : Renderer :=
  ⟨"NullProbe", fun fn _ => .ok fn.isNone, fun _ _ => .ok "saw-null"⟩

/-- Modelled from the spec (the claim's reading of
`get_lang_by_scope_name`): the lowercased first maximal run of
non-whitespace characters anywhere in the string, provided at least one
whitespace character follows that run; `""` otherwise.  To be compared
with `get_lang_by_scope_name`, whose regex is anchored at position 0. -/
def firstMaximalRunLang (s : String) : String :=
  let rest := s.data.dropWhile pyIsSpace
  let run := rest.takeWhile (fun c => !pyIsSpace c)
  if run ≠ [] ∧ rest.drop run.length ≠ [] then String.mk (run.map Char.toLower) else ""

/-- A sequence of non-immediate `queue` submissions for one buffer:
each element is the `(fullpath, lang, text)` of one call. -/
def submitAll (rs : List Renderer) (bid : Nat)
    (subs : List (Option String × String × String)) (s : WorkerState) : WorkerState :=
  subs.foldl (fun st x => queue rs st bid x.1 x.2.1 x.2.2 false) s

/-- The cache entry `_run_queued_item` writes on a successful render:
`RenderedMarkupCacheEntry(filename=filename, dirname=dirname, html_part=html_part)`. -/
def cacheEntryFor (item : WorkerQueueItem) (html : String) : RenderedMarkupCacheEntry :=
  { filename := os_path_basename item.fullpath
    dirname := os_path_dirname item.fullpath
    html_part := html }

/-- Concrete submissions used by witnesses. -/
def sampleSubs : List (Option String × String × String) :=
  [(some "d/a.md", "markdown", "v1"), (none, "markdown", "v2")]

/-- The worker's state right after construction. -/
def emptyWorkerState : WorkerState :=
  { que := [], stopping := false, cache := [], log := [] }

/-- A concrete view snapshot used by witnesses. -/
def sampleView : ViewState :=
  { buffer_id := 3, file_name := none, scope_name := "text.plain source",
    text := "hello" }

/-- A state with one pending item, used by witnesses. -/
def pendingWorkerState : WorkerState :=
  { que := [(3, mkWorkerQueueItem none "markdown" "# hi")], stopping := false,
    cache := [], log := [] }

/-- A loop iteration whose renderer is enabled and renders successfully
returns that renderer's output. -/
theorem render_text_success (r : Renderer) (rs : List Renderer)
    (fn : Option String) (lang text html : String)
    (he : r.is_enabled fn lang = .ok true) (hr : r.render text fn = .ok html) :
    render_text (r :: rs) fn lang text = .ok html := by
  simp only [render_text, he, hr]

/-- A loop iteration whose renderer does not succeed (not enabled, or
`is_enabled` raised, or `render` raised) falls through to the rest. -/
theorem render_text_skip (r : Renderer) (rs : List Renderer)
    (fn : Option String) (lang text : String)
    (h : ¬ rendererSucceeds r fn lang text) :
    render_text (r :: rs) fn lang text = render_text rs fn lang text := by
  cases he : r.is_enabled fn lang with
  | error e => simp only [render_text, he]
  | ok b =>
    cases b with
    | false => simp only [render_text, he]
    | true =>
      cases hr : r.render text fn with
      | error e => simp only [render_text, he, hr]
      | ok html => exact absurd ⟨he, html, hr⟩ h

/-- The only exception `render_text` raises is `NotImplementedError`:
every renderer exception is consumed by the loop's bare `except:`. -/
theorem render_text_error_notImpl (rs : List Renderer) (fn : Option String)
    (lang text : String) (e : PyExc)
    (h : render_text rs fn lang text = .error e) : e = .notImplementedError := by
  induction rs with
  | nil =>
    simp only [render_text, Except.error.injEq] at h
    exact h.symm
  | cons r rest ih =>
    cases he : r.is_enabled fn lang with
    | error e2 => simp only [render_text, he] at h; exact ih h
    | ok b =>
      cases b with
      | false => simp only [render_text, he] at h; exact ih h
      | true =>
        cases hr : r.render text fn with
        | error e2 => simp only [render_text, he, hr] at h; exact ih h
        | ok html =>
          simp only [render_text, he, hr] at h
          exact Except.noConfusion h

/-- `render_text` raises `NotImplementedError` exactly when no
registered renderer both reports itself enabled and renders
successfully. -/
theorem render_text_notImpl_iff (rs : List Renderer) (fn : Option String)
    (lang text : String) :
    render_text rs fn lang text = .error .notImplementedError ↔
      ∀ r ∈ rs, ¬ rendererSucceeds r fn lang text := by
  induction rs with
  | nil => simp [render_text]
  | cons r rest ih =>
    by_cases h : rendererSucceeds r fn lang text
    · obtain ⟨he, html, hr⟩ := h
      rw [render_text_success r rest fn lang text html he hr]
      constructor
      · intro hc; exact Except.noConfusion hc
      · intro hall; exact absurd ⟨he, html, hr⟩ (hall r (List.mem_cons_self r rest))
    · rw [render_text_skip r rest fn lang text h, ih]
      constructor
      · intro hall r2 hr2
        rcases List.mem_cons.mp hr2 with h2 | h2
        · exact h2 ▸ h
        · exact hall r2 h2
      · intro hall r2 hr2
        exact hall r2 (List.mem_cons_of_mem r hr2)

/-- Inserting a key makes it present with the inserted value. -/
theorem qLookup_dictInsert_self {α : Type} (k : Nat) (v : α)
    (d : List (Nat × α)) : qLookup k (dictInsert k v d) = some v := by
  induction d with
  | nil => simp [dictInsert, qLookup]
  | cons p rest ih =>
    by_cases h : p.1 = k
    · simp [dictInsert, h, qLookup]
    · simp [dictInsert, h, qLookup, ih]

/-- Keys after an insert: the inserted key or a pre-existing one. -/
theorem mem_keys_dictInsert {α : Type} (a k : Nat) (v : α) (d : List (Nat × α))
    (h : a ∈ (dictInsert k v d).map Prod.fst) :
    a = k ∨ a ∈ d.map Prod.fst := by
  induction d with
  | nil => simp [dictInsert] at h; exact Or.inl h
  | cons p rest ih =>
    by_cases hp : p.1 = k
    · simp only [dictInsert, hp, if_true, List.map_cons, List.mem_cons] at h
      rcases h with h | h
      · exact Or.inl h
      · exact Or.inr (by simp [h])
    · simp only [dictInsert, hp, if_false, List.map_cons, List.mem_cons] at h
      rcases h with h | h
      · exact Or.inr (by simp [h])
      · rcases ih h with h2 | h2
        · exact Or.inl h2
        · exact Or.inr (by simp [h2])

/-- Dict insertion preserves distinctness of keys. -/
theorem keysNodup_dictInsert {α : Type} (k : Nat) (v : α) (d : List (Nat × α))
    (h : keysNodup d) : keysNodup (dictInsert k v d) := by
  induction d with
  | nil => simp [dictInsert, keysNodup]
  | cons p rest ih =>
    simp only [keysNodup, List.map_cons, List.nodup_cons] at h
    by_cases hp : p.1 = k
    · simp only [dictInsert, hp, if_true, keysNodup, List.map_cons, List.nodup_cons]
      exact ⟨hp ▸ h.1, h.2⟩
    · simp only [dictInsert, hp, if_false, keysNodup, List.map_cons, List.nodup_cons]
      refine ⟨fun hmem => ?_, ih h.2⟩
      rcases mem_keys_dictInsert p.1 k v rest hmem with h1 | h1
      · exact hp h1
      · exact h.1 h1

/-- A key that is absent contributes no entries. -/
theorem filter_key_eq_nil {α : Type} (k : Nat) (d : List (Nat × α))
    (h : k ∉ d.map Prod.fst) : d.filter (fun p => p.1 = k) = [] := by
  induction d with
  | nil => rfl
  | cons p rest ih =>
    simp only [List.map_cons, List.mem_cons, not_or] at h
    rw [List.filter_cons]
    have hpk : ¬ p.1 = k := fun hc => h.1 hc.symm
    simp only [hpk, decide_eq_true_eq, ite_false, decide_False]
    exact ih h.2

/-- With distinct keys, a dict holds at most one entry per key. -/
theorem keyCount_le_one {α : Type} (k : Nat) (d : List (Nat × α))
    (h : keysNodup d) : keyCount k d ≤ 1 := by
  induction d with
  | nil => simp [keyCount]
  | cons p rest ih =>
    simp only [keysNodup, List.map_cons, List.nodup_cons] at h
    by_cases hp : p.1 = k
    · unfold keyCount
      rw [List.filter_cons]
      simp only [hp, decide_True, ite_true]
      rw [filter_key_eq_nil k rest (hp ▸ h.1)]
      simp
    · unfold keyCount at ih ⊢
      rw [List.filter_cons]
      simp only [hp, decide_False, ite_false]
      exact ih h.2

/-- With distinct keys, the entries under a present key are exactly the
single looked-up pair. -/
theorem filter_key_eq_single {α : Type} (k : Nat) (v : α) (d : List (Nat × α))
    (hnd : keysNodup d) (hl : qLookup k d = some v) :
    d.filter (fun p => p.1 = k) = [(k, v)] := by
  induction d with
  | nil => simp [qLookup] at hl
  | cons p rest ih =>
    simp only [keysNodup, List.map_cons, List.nodup_cons] at hnd
    by_cases hp : p.1 = k
    · simp only [qLookup, hp, if_true, Option.some.injEq] at hl
      rw [List.filter_cons]
      simp only [hp, decide_True, ite_true]
      rw [filter_key_eq_nil k rest (hp ▸ hnd.1)]
      have hpv : p = (k, v) := Prod.ext hp hl
      rw [hpv]
    · simp only [qLookup, hp, if_false] at hl
      rw [List.filter_cons]
      simp only [hp, decide_False, ite_false]
      exact ih hnd.2 hl

/-- A non-immediate submission only inserts the item into the pending
dict. -/
theorem queue_false_eq (rs : List Renderer) (s : WorkerState) (bid : Nat)
    (fullpath : Option String) (lang text : String) :
    queue rs s bid fullpath lang text false =
      { s with que := dictInsert bid (mkWorkerQueueItem fullpath lang text) s.que } := rfl

/-- A run of non-immediate submissions folds `dictInsert` over the
pending dict and leaves the rest of the state alone. -/
theorem submitAll_que (rs : List Renderer) (bid : Nat)
    (subs : List (Option String × String × String)) (s : WorkerState) :
    (submitAll rs bid subs s).que =
      subs.foldl (fun q x => dictInsert bid (mkWorkerQueueItem x.1 x.2.1 x.2.2) q) s.que ∧
    (submitAll rs bid subs s).stopping = s.stopping ∧
    (submitAll rs bid subs s).cache = s.cache := by
  induction subs generalizing s with
  | nil => exact ⟨rfl, rfl, rfl⟩
  | cons x xs ih =>
    simp only [submitAll, List.foldl_cons, queue_false_eq] at ih ⊢
    exact ih _

/-- Repeatedly inserting under one key leaves the last value. -/
theorem qLookup_foldl_dictInsert {β : Type} (k : Nat) (f : β → WorkerQueueItem)
    (subs : List β) (q : List (Nat × WorkerQueueItem)) (h : subs ≠ []) :
    qLookup k (subs.foldl (fun d x => dictInsert k (f x) d) q) =
      some (f (subs.getLast h)) := by
  induction subs generalizing q with
  | nil => exact absurd rfl h
  | cons x xs ih =>
    cases xs with
    | nil =>
      simp only [List.foldl_cons, List.foldl_nil, List.getLast_singleton]
      exact qLookup_dictInsert_self k (f x) q
    | cons y ys =>
      rw [List.foldl_cons, ih _ (List.cons_ne_nil y ys),
        List.getLast_cons (List.cons_ne_nil y ys)]

/-- Repeated insertion under one key preserves key distinctness. -/
theorem keysNodup_foldl_dictInsert {β : Type} (k : Nat) (f : β → WorkerQueueItem)
    (subs : List β) (q : List (Nat × WorkerQueueItem)) (h : keysNodup q) :
    keysNodup (subs.foldl (fun d x => dictInsert k (f x) d) q) := by
  induction subs generalizing q with
  | nil => exact h
  | cons x xs ih => exact ih _ (keysNodup_dictInsert k (f x) q h)

/-- Per-item processing never touches the pending dict or the stop
flag: `_run_queued_item` only writes the cache or the log. -/
theorem _run_queued_item_preserves (rs : List Renderer) (s : WorkerState)
    (bid : Nat) (item : WorkerQueueItem) :
    (_run_queued_item rs s bid item).que = s.que ∧
    (_run_queued_item rs s bid item).stopping = s.stopping := by
  cases h : render_text rs (some (os_path_basename item.fullpath)) item.lang item.text with
  | ok html => simp [_run_queued_item, h]
  | error e =>
    cases e with
    | notImplementedError => simp [_run_queued_item, h]
    | other m => simp [_run_queued_item, h]

/-- The three possible outcomes of per-item processing, mirroring the
`try/except` of `_run_queued_item`: a cache write keyed by the item's
buffer id, a silent skip on `NotImplementedError`, or a log append on
any other exception.  (The third branch mirrors the source's bare
`except:`; `render_text` itself never raises anything but
`NotImplementedError`, see `render_text_error_notImpl`.) -/
theorem run_queued_item_cases (rs : List Renderer) (s : WorkerState)
    (bid : Nat) (item : WorkerQueueItem) :
    (∃ html,
      render_text rs (some (os_path_basename item.fullpath)) item.lang item.text =
        .ok html ∧
      _run_queued_item rs s bid item =
        { s with cache := dictInsert bid (cacheEntryFor item html) s.cache }) ∨
    (render_text rs (some (os_path_basename item.fullpath)) item.lang item.text =
        .error .notImplementedError ∧
      _run_queued_item rs s bid item = s) ∨
    (∃ m,
      render_text rs (some (os_path_basename item.fullpath)) item.lang item.text =
        .error (.other m) ∧
      _run_queued_item rs s bid item = { s with log := s.log ++ [""] }) := by
  cases h : render_text rs (some (os_path_basename item.fullpath)) item.lang item.text with
  | ok html => exact Or.inl ⟨html, rfl, by simp [_run_queued_item, cacheEntryFor, h]⟩
  | error e =>
    cases e with
    | notImplementedError => exact Or.inr (Or.inl ⟨rfl, by simp [_run_queued_item, h]⟩)
    | other m => exact Or.inr (Or.inr ⟨m, rfl, by simp [_run_queued_item, h]⟩)

/-- C1: for every sequence of non-immediate `queue(buffer_id, ...)`
submissions with one `buffer_id` made before the worker drains, starting
from any state whose pending dict has distinct keys: (1) after every
prefix of the sequence the pending dict holds at most one entry for the
buffer (last-write-wins overwrite, `self.que[buffer_id] = item`);
(2) the surviving entry is exactly the item of the most recent
submission (its normalized fullpath, lang and text); (3) the pending
dict's entries for the buffer are exactly that single pair, and
(4) a worker wake-up drains the whole dict in one batch — so it
processes exactly that one item for the buffer. -/
theorem claim_C1 (rs : List Renderer) (bid : Nat)
    (subs : List (Option String × String × String)) (s : WorkerState)
    (hnd : keysNodup s.que) (hne : subs ≠ []) (hstop : s.stopping = false) :
    (∀ n, keyCount bid (submitAll rs bid (subs.take n) s).que ≤ 1) ∧
    qLookup bid (submitAll rs bid subs s).que =
      some (mkWorkerQueueItem (subs.getLast hne).1 (subs.getLast hne).2.1
        (subs.getLast hne).2.2) ∧
    (submitAll rs bid subs s).que.filter (fun p => p.1 = bid) =
      [(bid, mkWorkerQueueItem (subs.getLast hne).1 (subs.getLast hne).2.1
        (subs.getLast hne).2.2)] ∧
    runStep rs (submitAll rs bid subs s) =
      (WorkerPhase.waiting,
        processBatch rs { submitAll rs bid subs s with que := [] }
          (submitAll rs bid subs s).que) := by
  have hque := submitAll_que rs bid subs s
  have hnd2 : keysNodup (submitAll rs bid subs s).que := by
    rw [hque.1]
    exact keysNodup_foldl_dictInsert bid _ subs s.que hnd
  have hlook : qLookup bid (submitAll rs bid subs s).que =
      some (mkWorkerQueueItem (subs.getLast hne).1 (subs.getLast hne).2.1
        (subs.getLast hne).2.2) := by
    rw [hque.1]
    exact qLookup_foldl_dictInsert bid
      (fun x => mkWorkerQueueItem x.1 x.2.1 x.2.2) subs s.que hne
  have hne2 : (submitAll rs bid subs s).que ≠ [] := by
    intro h0
    rw [h0] at hlook
    simp [qLookup] at hlook
  have hie : (submitAll rs bid subs s).que.isEmpty = false := by
    cases hq : (submitAll rs bid subs s).que with
    | nil => exact absurd hq hne2
    | cons a l => rfl
  refine ⟨?_, hlook, filter_key_eq_single bid _ _ hnd2 hlook, ?_⟩
  · intro n
    have h1 := (submitAll_que rs bid (subs.take n) s).1
    have h2 : keysNodup (submitAll rs bid (subs.take n) s).que := by
      rw [h1]
      exact keysNodup_foldl_dictInsert bid _ _ s.que hnd
    exact keyCount_le_one bid _ h2
  · simp [runStep, hque.2.1, hstop, hie]

/-- Witness for C1: two submissions for buffer 7 starting from the
empty state; the pending dict holds at most one entry after the first
and exactly the last item after both. -/
theorem claim_C1_witness :
    keyCount 7 (submitAll [] 7 (sampleSubs.take 1) emptyWorkerState).que ≤ 1 ∧
    qLookup 7 (submitAll [] 7 sampleSubs emptyWorkerState).que =
      some (mkWorkerQueueItem none "markdown" "v2") := by
  have h := claim_C1 [] 7 sampleSubs emptyWorkerState
    (by simp [keysNodup, emptyWorkerState]) (by simp [sampleSubs]) rfl
  refine ⟨h.1 1, ?_⟩
  rw [h.2.1]
  decide

/-- C2 counterexample: the claim says an error raised by a renderer's
`is_enabled` propagates out of `render_text` uncaught.  On the code it
does not: with a single registered renderer whose `is_enabled` raises
`PyExc.other "boom"`, `render_text` returns its own
`NotImplementedError`, not the renderer's error — the bare `except:`
on lines 132-133 wraps the `is_enabled` call of line 130 as well. -/
theorem claim_C2_cex :
    render_text [enablementBoom] (some "a.md") "markdown" "# t" =
        .error .notImplementedError ∧
      (Except.error (PyExc.other "boom") : Except PyExc String) ≠
        .error .notImplementedError := by
  refine ⟨rfl, ?_⟩
  intro h
  simp at h

/-- C2 (amended): an error raised by a renderer's `is_enabled` is
caught inside `render_text`'s renderer loop, exactly like a failure of
the `render` call: the renderer is skipped and dispatch continues with
the remaining renderers; consequently `render_text` never surfaces a
renderer's exception, only `NotImplementedError`.  (The uncaught path
exists only in `is_renderers_enabled`, which has no `try`.) -/
theorem claim_C2_amended (r : Renderer) (rs : List Renderer) (fn : Option String)
    (lang text : String) (e : PyExc) (h : r.is_enabled fn lang = .error e) :
    render_text (r :: rs) fn lang text = render_text rs fn lang text ∧
      ∀ e2, render_text (r :: rs) fn lang text = .error e2 →
        e2 = .notImplementedError := by
  have hskip : render_text (r :: rs) fn lang text = render_text rs fn lang text := by
    simp only [render_text, h]
  exact ⟨hskip, fun e2 h2 => render_text_error_notImpl (r :: rs) fn lang text e2 h2⟩

/-- Witness for C2 (amended): a renderer whose `is_enabled` raises is
skipped, leaving dispatch over the empty remainder. -/
theorem claim_C2_amended_witness :
    render_text [enablementBoom] none "markdown" "x" =
      render_text [] none "markdown" "x" :=
  (claim_C2_amended enablementBoom [] none "markdown" "x" (.other "boom") rfl).1

/-- C3: `render_text` raises the no-renderer error
(`NotImplementedError`) if and only if no registered renderer both
reports itself enabled for the filename/language pair and completes its
render call successfully; moreover every error it raises is that one. -/
theorem claim_C3 (rs : List Renderer) (fn : Option String) (lang text : String) :
    (render_text rs fn lang text = .error .notImplementedError ↔
      ∀ r ∈ rs, ¬ rendererSucceeds r fn lang text) ∧
      ∀ e, render_text rs fn lang text = .error e → e = .notImplementedError :=
  ⟨render_text_notImpl_iff rs fn lang text,
   fun e h => render_text_error_notImpl rs fn lang text e h⟩

/-- Witness for C3: with an empty registry (no renderer enabled),
dispatch raises `NotImplementedError`. -/
theorem claim_C3_witness :
    render_text [] (some "a.md") "markdown" "x" = .error .notImplementedError := by
  have h := claim_C3 [] (some "a.md") "markdown" "x"
  exact h.1.mpr (by intro r hr; cases hr)

/-- C4: `render_text` iterates renderers in registration order and
returns the output of the first renderer that is enabled and whose
render call succeeds: if every renderer before `r` fails to succeed
(disabled, `is_enabled` raised, or `render` raised) and `r` is enabled
and renders `html`, dispatch returns `html`. -/
theorem claim_C4 (rs1 rs2 : List Renderer) (r : Renderer) (fn : Option String)
    (lang text html : String)
    (h1 : ∀ r2 ∈ rs1, ¬ rendererSucceeds r2 fn lang text)
    (h2 : r.is_enabled fn lang = .ok true)
    (h3 : r.render text fn = .ok html) :
    render_text (rs1 ++ r :: rs2) fn lang text = .ok html := by
  induction rs1 with
  | nil => simpa using render_text_success r rs2 fn lang text html h2 h3
  | cons x xs ih =>
    rw [List.cons_append,
      render_text_skip x (xs ++ r :: rs2) fn lang text (h1 x (List.mem_cons_self x xs))]
    exact ih fun r2 hr2 => h1 r2 (List.mem_cons_of_mem x hr2)

/-- Witness for C4: two registered renderers both enabled, the first's
`render` always fails, the second's succeeds — dispatch returns the
second's output. -/
theorem claim_C4_witness :
    render_text [failingRenderer, okRenderer] (some "a.md") "markdown" "x" =
      .ok "<p>ok</p>" := by
  have h1 : ∀ r2 ∈ [failingRenderer], ¬ rendererSucceeds r2 (some "a.md") "markdown" "x" := by
    intro r2 hr2
    rcases List.mem_singleton.mp hr2 with rfl
    rintro ⟨-, html, hr⟩
    exact Except.noConfusion hr
  exact claim_C4 [failingRenderer] [] okRenderer (some "a.md") "markdown" "x"
    "<p>ok</p>" h1 rfl rfl

/-- C5: an immediate submission `queue(..., immediate=True)` runs
`_run_queued_item` synchronously in the caller's context — the returned
state already reflects the render and the cache write (or the caught
failure: skip on `NotImplementedError`, log append otherwise) — and it
never inserts anything into the pending dict and never changes the stop
flag.  The model's `queue` and `_run_queued_item` are total functions:
no failure reaches the caller. -/
theorem claim_C5 (rs : List Renderer) (s : WorkerState) (bid : Nat)
    (fullpath : Option String) (lang text : String) :
    queue rs s bid fullpath lang text true =
      _run_queued_item rs s bid (mkWorkerQueueItem fullpath lang text) ∧
    (queue rs s bid fullpath lang text true).que = s.que ∧
    (queue rs s bid fullpath lang text true).stopping = s.stopping ∧
    ((∃ html,
      render_text rs
          (some (os_path_basename (mkWorkerQueueItem fullpath lang text).fullpath))
          lang text = .ok html ∧
      queue rs s bid fullpath lang text true =
        { s with cache := dictInsert bid (cacheEntryFor (mkWorkerQueueItem fullpath lang text) html) s.cache }) ∨
    (render_text rs
        (some (os_path_basename (mkWorkerQueueItem fullpath lang text).fullpath))
        lang text = .error .notImplementedError ∧
      queue rs s bid fullpath lang text true = s) ∨
    (∃ m,
      render_text rs
          (some (os_path_basename (mkWorkerQueueItem fullpath lang text).fullpath))
          lang text = .error (.other m) ∧
      queue rs s bid fullpath lang text true = { s with log := s.log ++ [""] })) := by
  refine ⟨rfl, ?_, ?_, ?_⟩
  · exact (_run_queued_item_preserves rs s bid (mkWorkerQueueItem fullpath lang text)).1
  · exact (_run_queued_item_preserves rs s bid (mkWorkerQueueItem fullpath lang text)).2
  · exact run_queued_item_cases rs s bid (mkWorkerQueueItem fullpath lang text)

/-- C6: per-item processing of a drained item either writes a cache
entry keyed by the item's buffer id (successful dispatch), or does
nothing when dispatch raises the no-renderer error, or appends to the
log on any other failure; it never touches the pending dict or the stop
flag, and — being total — no failure escapes the per-item handler:
processing a batch always continues with the remaining items. -/
theorem claim_C6 (rs : List Renderer) (s : WorkerState) (bid : Nat)
    (item : WorkerQueueItem) :
    ((_run_queued_item rs s bid item).que = s.que ∧
      (_run_queued_item rs s bid item).stopping = s.stopping) ∧
    ((∃ html,
        render_text rs (some (os_path_basename item.fullpath)) item.lang item.text =
          .ok html ∧
        _run_queued_item rs s bid item =
          { s with cache := dictInsert bid (cacheEntryFor item html) s.cache }) ∨
      (render_text rs (some (os_path_basename item.fullpath)) item.lang item.text =
          .error .notImplementedError ∧
        _run_queued_item rs s bid item = s) ∨
      (∃ m,
        render_text rs (some (os_path_basename item.fullpath)) item.lang item.text =
          .error (.other m) ∧
        _run_queued_item rs s bid item = { s with log := s.log ++ [""] })) ∧
    ∀ rest, processBatch rs s ((bid, item) :: rest) =
      processBatch rs (_run_queued_item rs s bid item) rest :=
  ⟨_run_queued_item_preserves rs s bid item,
   run_queued_item_cases rs s bid item,
   fun _ => rfl⟩

/-- C7: `queue_view(view, only_exists=True)` on a buffer with no cache
entry and with `omnimarkup_enabled` unset returns without enqueueing and
without changing the settings; in every other case (already enabled, or
`only_exists=False`, or a cache entry exists) it sets
`omnimarkup_enabled` to `True` and forwards the view's snapshot
(buffer id, filename, language from the scope name, full text) to
`RendererWorker.queue`. -/
theorem claim_C7 (rs : List Renderer) (s : WorkerState) (v : ViewState)
    (st : ViewSettings) (oe imm : Bool) :
    (oe = true → cacheExists v.buffer_id s.cache = false →
      st.omnimarkup_enabled = false →
      queue_view rs s v st oe imm = (s, st)) ∧
    (st.omnimarkup_enabled = true →
      queue_view rs s v st oe imm =
        (queue rs s v.buffer_id v.file_name (get_lang_by_scope_name v.scope_name)
          v.text imm, ⟨true⟩)) ∧
    (oe = false →
      queue_view rs s v st oe imm =
        (queue rs s v.buffer_id v.file_name (get_lang_by_scope_name v.scope_name)
          v.text imm, ⟨true⟩)) ∧
    (cacheExists v.buffer_id s.cache = true →
      queue_view rs s v st oe imm =
        (queue rs s v.buffer_id v.file_name (get_lang_by_scope_name v.scope_name)
          v.text imm, ⟨true⟩)) := by
  refine ⟨?_, ?_, ?_, ?_⟩
  · intro h1 h2 h3
    simp [queue_view, h1, h2, h3]
  · intro h1
    simp [queue_view, h1]
  · intro h1
    simp [queue_view, h1]
  · intro h1
    simp [queue_view, h1]

/-- Witness for C7: with an empty cache and the opt-in flag unset,
`only_exists=True` is a no-op; with the flag set, the same call
forwards the snapshot to the worker queue. -/
theorem claim_C7_witness :
    queue_view [] emptyWorkerState sampleView ⟨false⟩ true false =
      (emptyWorkerState, ⟨false⟩) ∧
    queue_view [] emptyWorkerState sampleView ⟨true⟩ true false =
      (queue [] emptyWorkerState sampleView.buffer_id sampleView.file_name
        (get_lang_by_scope_name sampleView.scope_name) sampleView.text false,
       ⟨true⟩) := by
  have h := claim_C7 [] emptyWorkerState sampleView ⟨false⟩ true false
  have h2 := claim_C7 [] emptyWorkerState sampleView ⟨true⟩ true false
  exact ⟨h.1 rfl rfl rfl, h2.2.1 rfl⟩

/-- C8 counterexample: the claim says every enabled-renderer lookup on
the dispatch path normalizes an absent (`None`) filename to `""` before
passing it to `is_enabled`.  `render_text` does not: a renderer that
reports itself enabled only when it receives `None` is selected when
`render_text` is called with `none` but not with `some ""` — the null
was propagated to `is_enabled` unnormalized. -/
theorem claim_C8_cex :
    render_text [nullProbe] none "markdown" "x" = .ok "saw-null" ∧
      render_text [nullProbe] (some "") "markdown" "x" =
        .error .notImplementedError ∧
      render_text [nullProbe] none "markdown" "x" ≠
        render_text [nullProbe] (some "") "markdown" "x" := by
  refine ⟨rfl, rfl, ?_⟩
  intro h
  rw [show render_text [nullProbe] none "markdown" "x" = .ok "saw-null" from rfl] at h
  rw [show render_text [nullProbe] (some "") "markdown" "x" =
    .error .notImplementedError from rfl] at h
  exact Except.noConfusion h

/-- C8 (amended): only `is_renderers_enabled` normalizes an absent
filename to the empty string (`filename = filename or ""`) before its
`is_enabled` calls — so for it `none` and `some ""` are
indistinguishable; `render_text` passes the filename through to
`is_enabled` unmodified, and there exists a renderer list on which its
results for `none` and `some ""` differ.  (On the worker path this is
harmless: `_run_queued_item` always passes
`os.path.basename(item.fullpath)`, a real string.) -/
theorem claim_C8_amended (rs : List Renderer) (lang : String) :
    is_renderers_enabled rs none lang = is_renderers_enabled rs (some "") lang ∧
      (∀ fn : Option String,
        is_renderers_enabled rs fn lang =
          is_renderers_enabled.go lang (pyOr fn "") rs) ∧
      ∃ (rs2 : List Renderer) (lang2 text2 : String),
        render_text rs2 none lang2 text2 ≠ render_text rs2 (some "") lang2 text2 := by
  refine ⟨rfl, fun fn => rfl, [nullProbe], "markdown", "x", ?_⟩
  intro h
  rw [show render_text [nullProbe] none "markdown" "x" = .ok "saw-null" from rfl] at h
  rw [show render_text [nullProbe] (some "") "markdown" "x" =
    .error .notImplementedError from rfl] at h
  exact Except.noConfusion h

/-- C9: one wake-up of the worker loop is a total transition function
(the model of "its top-level control flow never raises"), and it reaches
the terminated phase exactly when the stop flag is set — which is what
`stop()` sets; in each non-stopping case the loop returns to waiting,
either unchanged (spurious wake on an empty pending dict) or after
snapshotting and clearing the dict and processing the whole batch. -/
theorem claim_C9 (rs : List Renderer) (s : WorkerState) :
    ((runStep rs s).1 = WorkerPhase.terminated ↔ s.stopping = true) ∧
    (runStep rs (stop s)).1 = WorkerPhase.terminated ∧
    (stop s).stopping = true ∧
    (s.stopping = true → runStep rs s = (WorkerPhase.terminated, s)) ∧
    (s.stopping = false → s.que.isEmpty = true →
      runStep rs s = (WorkerPhase.waiting, s)) ∧
    (s.stopping = false → s.que.isEmpty = false →
      runStep rs s =
        (WorkerPhase.waiting, processBatch rs { s with que := [] } s.que)) := by
  refine ⟨?_, ?_, rfl, ?_, ?_, ?_⟩
  · constructor
    · intro h
      by_contra hc
      have hs : s.stopping = false := by
        cases hst : s.stopping
        · rfl
        · exact absurd hst hc
      by_cases hq : s.que.isEmpty = true
      · simp [runStep, hs, hq] at h
      · simp only [Bool.not_eq_true] at hq
        simp [runStep, hs, hq] at h
    · intro h
      simp [runStep, h]
  · simp [runStep, stop]
  · intro h
    simp [runStep, h]
  · intro h1 h2
    simp [runStep, h1, h2]
  · intro h1 h2
    simp [runStep, h1, h2]

/-- Witness for C9: from a concrete non-stopping state with one pending
item, a wake-up after `stop()` terminates, and a wake-up without
`stop()` drains and returns to waiting. -/
theorem claim_C9_witness :
    (runStep [] (stop pendingWorkerState)).1 = WorkerPhase.terminated ∧
    runStep [] pendingWorkerState =
      (WorkerPhase.waiting,
        processBatch [] { pendingWorkerState with que := [] }
          pendingWorkerState.que) := by
  have h := claim_C9 [] pendingWorkerState
  exact ⟨h.2.1, h.2.2.2.2.2 rfl rfl⟩

/-- C10 counterexample: the claim says `get_lang_by_scope_name` returns
the lowercased first maximal non-whitespace run whenever that run is
followed by whitespace.  For the input `" a b"` the first maximal run is
`"a"` and is followed by whitespace, so the claim's reading
(`firstMaximalRunLang`) yields `"a"`; the code yields `""`, because the
regex `^[^\s]+(?=\s+)` is anchored at position 0 and position 0 holds a
space. -/
theorem claim_C10_cex :
    get_lang_by_scope_name " a b" = "" ∧
      firstMaximalRunLang " a b" = "a" ∧
      get_lang_by_scope_name " a b" ≠ firstMaximalRunLang " a b" := by
  refine ⟨rfl, rfl, ?_⟩
  decide

/-- C10 (amended): for every scope name that does not begin with a
whitespace character, `get_lang_by_scope_name` returns the lowercased
first maximal run of non-whitespace characters when that run is
followed by at least one whitespace character and `""` otherwise (in
particular a single token with no trailing whitespace yields `""`); a
scope name beginning with whitespace yields `""` regardless, because
the regex is anchored at the start of the string. -/
theorem claim_C10_amended (s : String)
    (h : pyIsSpace (s.data.headD 'a') = false) :
    get_lang_by_scope_name s = firstMaximalRunLang s := by
  have hdw : s.data.dropWhile pyIsSpace = s.data := by
    cases hd : s.data with
    | nil => rfl
    | cons c cs =>
      rw [hd] at h
      simp only [List.headD_cons] at h
      simp [List.dropWhile_cons, h]
  unfold firstMaximalRunLang
  rw [hdw]
  unfold get_lang_by_scope_name LANG_RE_search
  by_cases hc : s.data.takeWhile (fun c => !pyIsSpace c) ≠ [] ∧
      s.data.drop (s.data.takeWhile (fun c => !pyIsSpace c)).length ≠ []
  · rw [if_pos hc, if_pos hc]
  · rw [if_neg hc, if_neg hc]

/-- Witness for C10 (amended): a scope name starting with a
non-whitespace character agrees with the claim's reading, and the first
token is lowercased. -/
theorem claim_C10_amended_witness :
    get_lang_by_scope_name "Text.HTML meta" = firstMaximalRunLang "Text.HTML meta" ∧
      get_lang_by_scope_name "Text.HTML meta" = "text.html" :=
  ⟨claim_C10_amended "Text.HTML meta" (by decide), by decide⟩
